import Mathlib

/-!
Verification of the timesheet generator (`src/index.mjs`).

JavaScript strings are embedded as `List Char` (`Str`); JS `Array` as
`List`.  The external collaborators (OpenAI formatter, git log fetch,
Google-Sheets writer) are parameters: the formatter is a function
`List Str → Option Str` (`none` = the API call threw), the fetch result is
an `Except Unit Str`, and the writer outcome a `Bool`.  Calendar dates are
modelled in UTC (the script builds `Date` objects at midnight and renders
them with `toISOString`); years of interest have four digits.
-/

namespace TimesheetMe

abbrev Str := List Char

def toStr (s : String) : Str := s.toList

/-- The literal separator `" - "` used by `log.split(" - ")`. -/
def SEP : Str := [' ', '-', ' ']

/-- If `sep` is a prefix of `s`, return the remainder, else `none`.
Auxiliary for the embedding of `String.prototype.split`. -/
def dropSep? : Str → Str → Option Str
  | [], s => some s
  | _ :: _, [] => none
  | c :: cs, d :: ds => if d = c then dropSep? cs ds else none

theorem dropSep?_eq_some {sep s t : Str} :
    dropSep? sep s = some t ↔ s = sep ++ t := by
  induction sep generalizing s with
  | nil => cases s <;> simp [dropSep?]
  | cons c cs ih =>
    cases s with
    | nil => simp [dropSep?]
    | cons d ds =>
      by_cases hdc : d = c
      · subst hdc
        simp [dropSep?, ih]
      · simp [dropSep?, hdc]

theorem dropSep?_append (sep t : Str) : dropSep? sep (sep ++ t) = some t :=
  dropSep?_eq_some.mpr rfl

theorem dropSep?_some_length {sep s t : Str} (h : dropSep? sep s = some t) :
    s.length = sep.length + t.length := by
  rw [dropSep?_eq_some.mp h]
  simp

/-- Fuel-indexed worker for the embedding of `String.prototype.split` on
the separator `" - "`: scan left to right, split at each occurrence.  The
fuel only makes the recursion structural; `splitL` supplies enough of it
and the result is fuel-independent (`splitLF_fuel_irrel`). -/
def splitLF : Nat → Str → List Str
  | _, [] => [[]]
  | 0, s => [s]
  | fuel + 1, c :: rest =>
    match dropSep? SEP (c :: rest) with
    | some tail => [] :: splitLF fuel tail
    | none =>
      match splitLF fuel rest with
      | [] => [[c]]
      | hd :: tl => (c :: hd) :: tl

/-- Embedding of `log.split(" - ")` on char lists: split on every
(non-overlapping, left-to-right) occurrence of `SEP`. -/
def splitL (s : Str) : List Str := splitLF s.length s

theorem splitLF_fuel_irrel (f : Nat) :
    ∀ (g : Nat) (s : Str), s.length ≤ f → s.length ≤ g →
      splitLF f s = splitLF g s := by
  induction f with
  | zero =>
    intro g s hf _
    have hs : s = [] := List.length_eq_zero.mp (Nat.le_zero.mp hf)
    subst hs
    cases g <;> rfl
  | succ f ih =>
    intro g s hf hg
    cases s with
    | nil => cases g <;> rfl
    | cons c rest =>
      cases g with
      | zero => simp at hg
      | succ g =>
        simp only [List.length_cons, Nat.succ_le_succ_iff] at hf hg
        cases hdrop : dropSep? SEP (c :: rest) with
        | some tail =>
          have hlen := dropSep?_some_length hdrop
          simp only [SEP, List.length_cons, List.length_nil] at hlen
          simp only [splitLF, hdrop]
          rw [ih g tail (by omega) (by omega)]
        | none =>
          simp only [splitLF, hdrop]
          rw [ih g rest hf hg]

theorem splitL_nil : splitL [] = [[]] := rfl

theorem splitL_cons_of_some {c : Char} {rest tail : Str}
    (h : dropSep? SEP (c :: rest) = some tail) :
    splitL (c :: rest) = [] :: splitL tail := by
  have hlen := dropSep?_some_length h
  simp only [SEP, List.length_cons, List.length_nil] at hlen
  unfold splitL
  simp only [List.length_cons, splitLF, h]
  rw [splitLF_fuel_irrel rest.length tail.length tail (by omega) (by omega)]

theorem splitL_cons_of_none {c : Char} {rest : Str} {hd : Str} {tl : List Str}
    (h : dropSep? SEP (c :: rest) = none) (hs : splitL rest = hd :: tl) :
    splitL (c :: rest) = (c :: hd) :: tl := by
  unfold splitL at hs ⊢
  simp only [List.length_cons, splitLF, h, hs]

theorem splitLF_ne_nil (f : Nat) (s : Str) : splitLF f s ≠ [] := by
  cases s with
  | nil => cases f <;> simp [splitLF]
  | cons c rest =>
    cases f with
    | zero => simp [splitLF]
    | succ f =>
      cases hdrop : dropSep? SEP (c :: rest) with
      | some tail => simp [splitLF, hdrop]
      | none =>
        simp only [splitLF, hdrop]
        split <;> simp

theorem splitL_ne_nil (s : Str) : splitL s ≠ [] := splitLF_ne_nil _ _

theorem splitL_sep_append (msg : Str) : splitL (SEP ++ msg) = [] :: splitL msg := by
  have h : dropSep? SEP (' ' :: ('-' :: ' ' :: msg)) = some msg := dropSep?_append SEP msg
  exact splitL_cons_of_some h

/-- Embedding of `Array.prototype.join(sep)` on char lists. -/
def joinWith (sep : Str) : List Str → Str
  | [] => []
  | [x] => x
  | x :: xs => x ++ sep ++ joinWith sep xs

theorem joinWith_cons₂ (sep x y : Str) (ys : List Str) :
    joinWith sep (x :: y :: ys) = x ++ sep ++ joinWith sep (y :: ys) := rfl

/-- The whitespace test of `String.prototype.trim` (restricted to the ASCII
whitespace characters; the JS method also strips Unicode space, which never
occurs in this development). -/
def isJsSpace (c : Char) : Bool :=
  c = ' ' || c = '\t' || c = '\n' || c = '\r' || c = '\x0b' || c = '\x0c'

/-- Embedding of `String.prototype.trim`. -/
def trimL (s : Str) : Str :=
  ((s.dropWhile isJsSpace).reverse.dropWhile isJsSpace).reverse

/-- `true` iff the separator `" - "` occurs somewhere in `s`. -/
def hasSep : Str → Bool
  | [] => false
  | c :: rest => (dropSep? SEP (c :: rest)).isSome || hasSep rest

theorem joinWith_splitLF (f : Nat) : ∀ s : Str, joinWith SEP (splitLF f s) = s := by
  induction f with
  | zero =>
    intro s
    cases s <;> simp [splitLF, joinWith]
  | succ f ih =>
    intro s
    cases s with
    | nil => simp [splitLF, joinWith]
    | cons c rest =>
      cases hdrop : dropSep? SEP (c :: rest) with
      | some tail =>
        have heq := dropSep?_eq_some.mp hdrop
        obtain ⟨hd, tl, hs⟩ := List.exists_cons_of_ne_nil (splitLF_ne_nil f tail)
        simp only [splitLF, hdrop, hs, joinWith_cons₂, List.nil_append]
        rw [← hs, ih, ← heq]
      | none =>
        obtain ⟨hd, tl, hs⟩ := List.exists_cons_of_ne_nil (splitLF_ne_nil f rest)
        have ihr := ih rest
        rw [hs] at ihr
        simp only [splitLF, hdrop, hs]
        cases tl with
        | nil =>
          simp only [joinWith] at ihr ⊢
          rw [ihr]
        | cons y ys =>
          rw [joinWith_cons₂] at ihr ⊢
          simp only [List.cons_append]
          rw [← ihr]

/-- Splitting then re-joining on the separator is the identity
(`split` loses no text). -/
theorem joinWith_splitL (s : Str) : joinWith SEP (splitL s) = s :=
  joinWith_splitLF s.length s

theorem hasSep_cons_false {c : Char} {rest : Str} (h : hasSep (c :: rest) = false) :
    dropSep? SEP (c :: rest) = none ∧ hasSep rest = false := by
  rw [hasSep] at h
  constructor
  · cases hd : dropSep? SEP (c :: rest) with
    | none => rfl
    | some t => rw [hd] at h; simp at h
  · cases hr : hasSep rest with
    | false => rfl
    | true => rw [hr] at h; simp at h

/-- `dropSep?` on a list of at least three characters only inspects the
first three. -/
theorem dropSep?_cons3 (a0 a1 a2 : Char) (r : Str) :
    dropSep? [' ', '-', ' '] (a0 :: a1 :: a2 :: r) =
      if a0 = ' ' ∧ a1 = '-' ∧ a2 = ' ' then some r else none := by
  simp only [dropSep?]
  by_cases h0 : a0 = ' ' <;> by_cases h1 : a1 = '-' <;> by_cases h2 : a2 = ' ' <;>
    simp [h0, h1, h2]

/-- If the separator does not occur in `date ++ " -"`, then splitting
`date ++ " - " ++ msg` peels off exactly `date`: the split point is the
first occurrence of the separator. -/
theorem splitL_first_occurrence (date msg : Str)
    (h : hasSep (date ++ [' ', '-']) = false) :
    splitL (date ++ SEP ++ msg) = date :: splitL msg := by
  induction date with
  | nil =>
    simp only [List.nil_append]
    exact splitL_sep_append msg
  | cons c d ih =>
    simp only [List.cons_append] at h
    obtain ⟨h1, h2⟩ := hasSep_cons_false h
    have hnone : dropSep? SEP ((c :: d) ++ SEP ++ msg) = none := by
      cases d with
      | nil =>
        simp only [SEP, List.nil_append, List.cons_append]
        rw [dropSep?_cons3]
        simp
      | cons x e =>
        cases e with
        | nil =>
          simp only [SEP, List.cons_append, List.nil_append] at h1 ⊢
          rw [dropSep?_cons3] at h1 ⊢
          split at h1
          · cases h1
          · rename_i hcond
            rw [if_neg hcond]
        | cons y f =>
          simp only [SEP, List.cons_append, List.append_assoc] at h1 ⊢
          rw [dropSep?_cons3] at h1 ⊢
          split at h1
          · cases h1
          · rename_i hcond
            rw [if_neg hcond]
    have ihs := ih h2
    simp only [List.cons_append] at hnone ⊢
    exact splitL_cons_of_none hnone ihs

/-- A line without the separator is returned whole by `split`. -/
theorem splitL_no_sep (s : Str) (h : hasSep s = false) : splitL s = [s] := by
  induction s with
  | nil => exact splitL_nil
  | cons c rest ih =>
    obtain ⟨h1, h2⟩ := hasSep_cons_false h
    exact splitL_cons_of_none h1 (ih h2)

/-- Embedding of the per-line extraction
`const [date, ...messageParts] = log.split(" - ");
 const message = messageParts.join(" - ").trim();`. -/
def parseLine (log : Str) : Str × Str :=
  ((splitL log).headD [], trimL (joinWith SEP (splitL log).tail))

/-- One step of the `logs.forEach` grouping loop: skip falsy (empty) lines,
else append the parsed message to the group of the parsed date
(`if (!dailyLog[date]) dailyLog[date] = []; dailyLog[date].push(message);`).
The JS object `dailyLog` is embedded as the total function from keys to the
stored list, missing keys mapping to `[]` (which is also how the builder
reads it back: `dailyLog[dateStr] || []`). -/
def logStep (g : Str → List Str) (log : Str) : Str → List Str :=
  if log = [] then g
  else fun d => if d = (parseLine log).1 then g d ++ [(parseLine log).2] else g d

/-- Embedding of the whole grouping loop over the fetched log lines. -/
def groupLogs (lines : List Str) : Str → List Str :=
  lines.foldl logStep (fun _ => [])

/-- The messages of the non-blank lines whose parsed date is `d`, in input
order (the flattening direction of the round-trip property). -/
def messagesFor (lines : List Str) (d : Str) : List Str :=
  (lines.filter (fun l => !l.isEmpty)).filterMap
    (fun l => if (parseLine l).1 = d then some (parseLine l).2 else none)

/-! ### Calendar model (proleptic Gregorian, UTC) -/

def isLeapYear (y : Nat) : Bool :=
  (y % 4 == 0 && y % 100 != 0) || y % 400 == 0

/-- Length of month `m` (1-based) of year `y`. -/
def daysInMonth (y m : Nat) : Nat :=
  if m = 2 then (if isLeapYear y then 29 else 28)
  else if m = 4 ∨ m = 6 ∨ m = 9 ∨ m = 11 then 30
  else 31

def daysBeforeMonth (y m : Nat) : Nat :=
  ((List.range (m - 1)).map (fun k => daysInMonth y (k + 1))).sum

/-- Days from 0001-01-01 (day 0) to year `y`, month `m`, day `d`. -/
def dayNumber (y m d : Nat) : Nat :=
  (365 * (y - 1) + (y - 1) / 4 + (y - 1) / 400 + daysBeforeMonth y m + (d - 1))
    - (y - 1) / 100

/-- Embedding of `Date.prototype.getDay`: 0 = Sunday, …, 6 = Saturday
(0001-01-01 was a Monday in the proleptic Gregorian calendar). -/
def getDay (y m d : Nat) : Nat := (dayNumber y m d + 1) % 7

/-- `function isWeekend(date) { return date.getDay() === 0 || date.getDay() === 6; }` -/
def isWeekend (y m d : Nat) : Bool := getDay y m d == 0 || getDay y m d == 6

def natChars (n : Nat) : Str := Nat.toDigits 10 n

/-- `String(n).padStart(2, "0")`-style two-digit field. -/
def pad2 (n : Nat) : Str := if n < 10 then '0' :: natChars n else natChars n

/-- Embedding of `currentDate.toISOString().split("T")[0]` for a
(four-digit-year) date constructed at UTC midnight. -/
def isoDate (y m d : Nat) : Str :=
  natChars y ++ '-' :: (pad2 m ++ '-' :: pad2 d)

/-- Month (1-based) of the date `new Date(y, m-1, i)` after JS `Date`
normalisation, for a valid month `m` and `1 ≤ i ≤ 31`: a day index past the
end of the month carries over into the following month (by at most 3 days,
since every month has ≥ 28 days). -/
def monthAfterOverflow (y m i : Nat) : Nat :=
  if i ≤ daysInMonth y m then m else (if m = 12 then 1 else m + 1)

/-- The day indices the `for (let i = 1; i <= 31; i++)` loop actually
processes: it breaks at the first `i` with
`currentDate.getMonth() + 1 !== currentMonth`. -/
def timesheetDays (y m : Nat) : List Nat :=
  (((List.range 31).map (fun k => k + 1)).takeWhile
    (fun i => monthAfterOverflow y m i == m))

/-! ### Timesheet builder -/

def DEFAULT_HOURS : Nat := 8

/-- Embedding of `formatCommitMessages`: on API success the response text is
trimmed; on API failure (`catch`) the raw messages joined by `"\n"` are
returned.  The collaborator `fmt` stands for the OpenAI call, `none`
meaning it threw. -/
def formatCommitMessages (fmt : List Str → Option Str) (messages : List Str) : Str :=
  match fmt messages with
  | some s => trimL s
  | none => joinWith ['\n'] messages

/-- One row pushed onto `timesheetData` (keys `Date`, `"Worked Hours"`,
`Logs`, `Weekend`). -/
structure DayRecord where
  date : Str
  workedHours : Nat
  logs : Str
  weekend : Str
  deriving DecidableEq, Repr

/-- The body of the day loop of `generateTimesheet` for day index `i`. -/
def buildDay (g : Str → List Str) (fmt : List Str → Option Str)
    (y m i : Nat) : DayRecord :=
  let dateStr := isoDate y m i
  let isHoliday := isWeekend y m i
  let rawMessages := g dateStr
  let formattedMessages :=
    if rawMessages.length ≠ 0 then formatCommitMessages fmt rawMessages
    else toStr "No logs"
  let hours := if rawMessages.length > 0 && !isHoliday then DEFAULT_HOURS else 0
  { date := dateStr, workedHours := hours, logs := formattedMessages,
    weekend := if isHoliday then toStr "Yes" else toStr "No" }

def tsStep (g : Str → List Str) (fmt : List Str → Option Str) (y m : Nat)
    (acc : List DayRecord × Nat) (i : Nat) : List DayRecord × Nat :=
  let r := buildDay g fmt y m i
  (acc.1 ++ [r], acc.2 + r.workedHours)

/-- The pure core of `generateTimesheet`: from the (already split) log
lines, the target year and 1-based month, produce `timesheetData` and the
accumulated `totalHours`. -/
def generateTimesheet (fmt : List Str → Option Str) (logs : List Str)
    (y m : Nat) : List DayRecord × Nat :=
  (timesheetDays y m).foldl (tsStep (groupLogs logs) fmt y m) ([], 0)

/-! ### Whole-run control flow -/

/-- Embedding of `execSync(...).toString().split("\n")`: split on every
newline. -/
def splitOnChar (sep : Char) : Str → List Str
  | [] => [[]]
  | c :: rest =>
    if c = sep then [] :: splitOnChar sep rest
    else
      match splitOnChar sep rest with
      | [] => [[c]]
      | hd :: tl => (c :: hd) :: tl

/-- Observable outcome of one run of the script, starting at the git-log
fetch (the CLI/credential checks preceding it are not modelled). -/
structure RunResult where
  exitCode : Nat
  writerCalled : Bool
  writeErrorReported : Bool
  timesheet : Option (List DayRecord × Nat)
  fetchCalls : Nat
  deriving Repr

/-- Control flow of `generateTimesheet` from the `execSync` call on:
a fetch failure is caught once and answered with `process.exit(1)` before
any day is built; otherwise the timesheet is built and
`updateGoogleSheet` is always invoked, which `catch`es its own failure
(`writeOk = false`), reports it, and lets the process end with status 0. -/
def runTimesheet (fetch : Except Unit Str) (fmt : List Str → Option Str)
    (writeOk : Bool) (y m : Nat) : RunResult :=
  match fetch with
  | Except.error _ =>
    { exitCode := 1, writerCalled := false, writeErrorReported := false,
      timesheet := none, fetchCalls := 1 }
  | Except.ok raw =>
    { exitCode := 0, writerCalled := true, writeErrorReported := !writeOk,
      timesheet := some (generateTimesheet fmt (splitOnChar '\n' raw) y m),
      fetchCalls := 1 }

/-! ### Faithful JS-object model of `dailyLog`

`dailyLog = {}` is a plain object, so a property read on it falls through
to `Object.prototype` when the key is not an own property.  Every
`Object.prototype` member (and the `__proto__` accessor's result) is a
truthy non-array value without a `push` method, so for such a key the
guard `if (!dailyLog[date])` skips initialisation and
`dailyLog[date].push(message)` throws a `TypeError`.  The model below
keeps own properties as `Str → Option (List Str)` (`none` = not own) and
makes the grouping step `Except`-valued to expose that error path; the
total-map model `groupLogs` above agrees with it on every run that does
not throw (`groupLogsJS_refines`). -/

/-- The property names a fresh plain object inherits from
`Object.prototype`. -/
def objectProtoProps : List Str :=
  [toStr "constructor", toStr "hasOwnProperty", toStr "isPrototypeOf",
   toStr "propertyIsEnumerable", toStr "toLocaleString", toStr "toString",
   toStr "valueOf", toStr "__proto__", toStr "__defineGetter__",
   toStr "__defineSetter__", toStr "__lookupGetter__", toStr "__lookupSetter__"]

/-- One step of the grouping loop on the faithful object model: skip falsy
(empty) lines; an own-property read yields the stored (truthy) array and
the message is pushed; a key inherited from `Object.prototype` reads
truthy, initialisation is skipped, and the `push` throws (`Except.error`);
an absent key reads `undefined`, is initialised to `[]`, and pushed. -/
def logStepJS (g : Str → Option (List Str)) (log : Str) :
    Except Unit (Str → Option (List Str)) :=
  if log = [] then Except.ok g
  else
    match g (parseLine log).1 with
    | some arr =>
      Except.ok (fun d =>
        if d = (parseLine log).1 then some (arr ++ [(parseLine log).2]) else g d)
    | none =>
      if (parseLine log).1 ∈ objectProtoProps then Except.error ()
      else
        Except.ok (fun d =>
          if d = (parseLine log).1 then some [(parseLine log).2] else g d)

/-- The whole grouping loop on the faithful object model: the first line
whose date part is an inherited `Object.prototype` name aborts it. -/
def groupLogsJS (lines : List Str) : Except Unit (Str → Option (List Str)) :=
  lines.foldlM logStepJS (fun _ => none)

/-! ### Helper lemmas -/

theorem daysInMonth_bounds (y m : Nat) :
    28 ≤ daysInMonth y m ∧ daysInMonth y m ≤ 31 := by
  unfold daysInMonth
  split
  · split <;> omega
  · split <;> omega

theorem monthAfterOverflow_eq_iff (y m i : Nat) :
    (monthAfterOverflow y m i == m) = decide (i ≤ daysInMonth y m) := by
  unfold monthAfterOverflow
  by_cases h : i ≤ daysInMonth y m
  · simp [h]
  · by_cases h12 : m = 12
    · subst h12
      simp [h]
    · have hne : m + 1 ≠ m := Nat.succ_ne_self m
      simp [h, h12, hne]

theorem takeWhile_le_days (d : Nat) (h28 : 28 ≤ d) (h31 : d ≤ 31) :
    ((List.range 31).map (fun k => k + 1)).takeWhile (fun i => decide (i ≤ d)) =
      (List.range d).map (fun k => k + 1) := by
  interval_cases d <;> decide

theorem timesheetDays_eq (y m : Nat) :
    timesheetDays y m = (List.range (daysInMonth y m)).map (fun k => k + 1) := by
  unfold timesheetDays
  have hp : (fun i => monthAfterOverflow y m i == m) =
      (fun i => decide (i ≤ daysInMonth y m)) := by
    funext i
    exact monthAfterOverflow_eq_iff y m i
  rw [hp]
  exact takeWhile_le_days _ (daysInMonth_bounds y m).1 (daysInMonth_bounds y m).2

theorem tsStep_foldl (g : Str → List Str) (fmt : List Str → Option Str)
    (y m : Nat) (l : List Nat) (acc : List DayRecord) (tot : Nat) :
    l.foldl (tsStep g fmt y m) (acc, tot) =
      (acc ++ l.map (buildDay g fmt y m),
       tot + (l.map (fun i => (buildDay g fmt y m i).workedHours)).sum) := by
  induction l generalizing acc tot with
  | nil => simp
  | cons i is ih =>
    simp only [List.foldl_cons, List.map_cons, List.sum_cons]
    rw [tsStep, ih]
    simp [Nat.add_assoc]

theorem generateTimesheet_eq (fmt : List Str → Option Str) (logs : List Str)
    (y m : Nat) :
    generateTimesheet fmt logs y m =
      ((timesheetDays y m).map (buildDay (groupLogs logs) fmt y m),
       ((timesheetDays y m).map
         (fun i => (buildDay (groupLogs logs) fmt y m i).workedHours)).sum) := by
  unfold generateTimesheet
  rw [tsStep_foldl]
  simp

theorem buildDay_date (g : Str → List Str) (fmt : List Str → Option Str)
    (y m i : Nat) : (buildDay g fmt y m i).date = isoDate y m i := rfl

theorem groupLogs_foldl (lines : List Str) (g : Str → List Str) (d : Str) :
    lines.foldl logStep g d = g d ++ messagesFor lines d := by
  induction lines generalizing g with
  | nil => simp [messagesFor]
  | cons l ls ih =>
    simp only [List.foldl_cons]
    rw [ih]
    by_cases hl : l = []
    · subst hl
      simp [logStep, messagesFor]
    · have hne : (!l.isEmpty) = true := by
        cases l
        · exact absurd rfl hl
        · rfl
      have hmf : messagesFor (l :: ls) d =
          (if (parseLine l).1 = d then [(parseLine l).2] else [])
            ++ messagesFor ls d := by
        by_cases hd1 : (parseLine l).1 = d
        · simp [messagesFor, List.filter_cons, hne, hd1]
        · simp [messagesFor, List.filter_cons, hne, hd1]
      rw [hmf]
      by_cases hd1 : (parseLine l).1 = d
      · have hd2 : d = (parseLine l).1 := hd1.symm
        simp [logStep, hl, hd1, if_pos hd2]
      · have hd2 : ¬ d = (parseLine l).1 := fun hc => hd1 hc.symm
        simp [logStep, hl, hd1, if_neg hd2]

theorem logStepJS_some {g : Str → Option (List Str)} {log : Str} {arr : List Str}
    (hl : log ≠ []) (hga : g (parseLine log).1 = some arr) :
    logStepJS g log = Except.ok (fun d =>
      if d = (parseLine log).1 then some (arr ++ [(parseLine log).2]) else g d) := by
  rw [logStepJS, if_neg hl, hga]

theorem logStepJS_none_mem {g : Str → Option (List Str)} {log : Str}
    (hl : log ≠ []) (hga : g (parseLine log).1 = none)
    (hmem : (parseLine log).1 ∈ objectProtoProps) :
    logStepJS g log = Except.error () := by
  rw [logStepJS, if_neg hl, hga]
  simp [hmem]

theorem logStepJS_none_not_mem {g : Str → Option (List Str)} {log : Str}
    (hl : log ≠ []) (hga : g (parseLine log).1 = none)
    (hmem : (parseLine log).1 ∉ objectProtoProps) :
    logStepJS g log = Except.ok (fun d =>
      if d = (parseLine log).1 then some [(parseLine log).2] else g d) := by
  rw [logStepJS, if_neg hl, hga]
  simp [hmem]

theorem logStepJS_refines (g : Str → Option (List Str)) (f : Str → List Str)
    (hgf : ∀ d, (g d).getD [] = f d) (log : Str)
    (g1 : Str → Option (List Str)) (hok : logStepJS g log = Except.ok g1) :
    ∀ d, (g1 d).getD [] = logStep f log d := by
  intro d
  by_cases hl : log = []
  · rw [logStepJS, if_pos hl] at hok
    cases hok
    simp [logStep, hl, hgf]
  · cases hga : g (parseLine log).1 with
    | some arr =>
      rw [logStepJS_some hl hga] at hok
      cases hok
      by_cases hd : d = (parseLine log).1
      · have harr := hgf (parseLine log).1
        rw [hga] at harr
        simp only [Option.getD_some] at harr
        simp [logStep, hl, hd, harr]
      · simp [logStep, hl, hd, hgf]
    | none =>
      by_cases hmem : (parseLine log).1 ∈ objectProtoProps
      · rw [logStepJS_none_mem hl hga hmem] at hok
        exact Except.noConfusion hok
      · rw [logStepJS_none_not_mem hl hga hmem] at hok
        cases hok
        by_cases hd : d = (parseLine log).1
        · have harr := hgf (parseLine log).1
          rw [hga] at harr
          simp only [Option.getD_none] at harr
          simp [logStep, hl, hd, ← harr]
        · simp [logStep, hl, hd, hgf]

theorem foldlM_logStepJS_refines (lines : List Str) :
    ∀ (g0 : Str → Option (List Str)) (f0 : Str → List Str),
      (∀ d, (g0 d).getD [] = f0 d) →
      ∀ g1, lines.foldlM logStepJS g0 = Except.ok g1 →
        ∀ d, (g1 d).getD [] = lines.foldl logStep f0 d := by
  induction lines with
  | nil =>
    intro g0 f0 h g1 hok d
    rw [List.foldlM_nil] at hok
    have hg : g0 = g1 := Except.ok.inj hok
    rw [← hg, List.foldl_nil]
    exact h d
  | cons l ls ih =>
    intro g0 f0 h g1 hok d
    rw [List.foldlM_cons] at hok
    cases hstep : logStepJS g0 l with
    | error e =>
      rw [hstep] at hok
      exact Except.noConfusion hok
    | ok gm =>
      rw [hstep] at hok
      have hok2 : ls.foldlM logStepJS gm = Except.ok g1 := hok
      rw [List.foldl_cons]
      exact ih gm (logStep f0 l) (logStepJS_refines g0 f0 h l gm hstep) g1 hok2 d

/-- On every run of the grouping loop that does not throw, the faithful
JS-object model and the total-map model store the same list under every
key. -/
theorem groupLogsJS_refines (lines : List Str)
    (g : Str → Option (List Str)) (hok : groupLogsJS lines = Except.ok g) :
    ∀ d, (g d).getD [] = groupLogs lines d :=
  foldlM_logStepJS_refines lines (fun _ => none) (fun _ => [])
    (fun _ => rfl) g hok

/-! ### Claim theorems -/

/-- C1: for every target (year, 1-based month) the produced timesheet has
exactly one `DayRecord` per calendar day of that month — `daysInMonth y m`
entries, leap-year correct — and the record dates are, in order, the ISO
strings of days `1 … daysInMonth y m`: strictly ascending, contiguous, and
no day is skipped even when it has no log messages. -/
theorem C1_one_record_per_day (fmt : List Str → Option Str) (logs : List Str)
    (y m : Nat) :
    (generateTimesheet fmt logs y m).1.length = daysInMonth y m ∧
    (generateTimesheet fmt logs y m).1.map (fun r => r.date) =
      (List.range (daysInMonth y m)).map (fun k => isoDate y m (k + 1)) := by
  rw [generateTimesheet_eq]
  constructor
  · simp [timesheetDays_eq]
  · simp only [timesheetDays_eq, List.map_map]
    rfl

/-- C5: the accumulated `totalHours` equals the sum of `workedHours` over
all records of the produced timesheet. -/
theorem C5_total_is_sum (fmt : List Str → Option Str) (logs : List Str)
    (y m : Nat) :
    (generateTimesheet fmt logs y m).2 =
      ((generateTimesheet fmt logs y m).1.map (fun r => r.workedHours)).sum := by
  rw [generateTimesheet_eq]
  simp only [List.map_map]
  rfl

/-- C7: grouping the raw lines and then reading back the sequence stored
under any date yields exactly the messages of the non-blank input lines
parsed to that date, in input order — per-date count and order are
preserved by the round-trip. -/
theorem C7_group_roundtrip (lines : List Str) (d : Str) :
    groupLogs lines d = messagesFor lines d := by
  unfold groupLogs
  rw [groupLogs_foldl]
  rfl

/-- C8: if the log fetch fails, the run exits with a non-zero status,
builds no timesheet, never invokes the spreadsheet writer, and the fetch
is attempted exactly once (no retry). -/
theorem C8_fetch_failure_fatal (fmt : List Str → Option Str) (writeOk : Bool)
    (y m : Nat) :
    (runTimesheet (Except.error ()) fmt writeOk y m).exitCode ≠ 0 ∧
    (runTimesheet (Except.error ()) fmt writeOk y m).writerCalled = false ∧
    (runTimesheet (Except.error ()) fmt writeOk y m).timesheet = none ∧
    (runTimesheet (Except.error ()) fmt writeOk y m).fetchCalls = 1 :=
  ⟨Nat.one_ne_zero, rfl, rfl, rfl⟩

/-- C9: if the spreadsheet writer fails, the failure is reported as a
diagnostic but not propagated: the writer was invoked, the run completes
with the timesheet built, and the process exits with status 0. -/
theorem C9_write_failure_nonfatal (raw : Str) (fmt : List Str → Option Str)
    (y m : Nat) :
    (runTimesheet (Except.ok raw) fmt false y m).exitCode = 0 ∧
    (runTimesheet (Except.ok raw) fmt false y m).writerCalled = true ∧
    (runTimesheet (Except.ok raw) fmt false y m).writeErrorReported = true ∧
    (runTimesheet (Except.ok raw) fmt false y m).timesheet ≠ none :=
  ⟨rfl, rfl, rfl, fun h => Option.noConfusion h⟩

/-- C3: each record's `workedHours` is the daily-hours constant exactly
when the day has raw messages and is not a weekend, else 0; hence a
weekend record has 0 hours, and positive hours imply a non-weekend day
with at least one raw message. -/
theorem C3_hours_rule (fmt : List Str → Option Str) (logs : List Str)
    (y m : Nat) (r : DayRecord)
    (hr : r ∈ (generateTimesheet fmt logs y m).1) :
    (r.workedHours =
      if groupLogs logs r.date ≠ [] ∧ r.weekend = toStr "No"
      then DEFAULT_HOURS else 0) ∧
    (r.weekend = toStr "Yes" → r.workedHours = 0) ∧
    (0 < r.workedHours → r.weekend = toStr "No" ∧ groupLogs logs r.date ≠ []) := by
  rw [generateTimesheet_eq] at hr
  simp only [List.mem_map] at hr
  obtain ⟨i, _, rfl⟩ := hr
  have hyn : toStr "Yes" ≠ toStr "No" := by decide
  have hny : toStr "No" ≠ toStr "Yes" := by decide
  by_cases hw : isWeekend y m i = true
  · by_cases hg : groupLogs logs (isoDate y m i) = [] <;>
      simp [buildDay, hw, hg, hyn]
  · have hw' : isWeekend y m i = false := by
      cases hwb : isWeekend y m i
      · rfl
      · exact absurd hwb hw
    by_cases hg : groupLogs logs (isoDate y m i) = []
    · simp [buildDay, hw', hg, hny]
    · have hpos : 0 < (groupLogs logs (isoDate y m i)).length :=
        List.length_pos.mpr hg
      simp [buildDay, hw', hg, hny, hpos, DEFAULT_HOURS]

/-- C6: a day of the target month with no stored raw messages gets the
literal summary "No logs" and 0 worked hours. -/
theorem C6_no_logs (fmt : List Str → Option Str) (logs : List Str)
    (y m : Nat) (r : DayRecord)
    (hr : r ∈ (generateTimesheet fmt logs y m).1)
    (hempty : groupLogs logs r.date = []) :
    r.logs = toStr "No logs" ∧ r.workedHours = 0 := by
  rw [generateTimesheet_eq] at hr
  simp only [List.mem_map] at hr
  obtain ⟨i, _, rfl⟩ := hr
  rw [buildDay_date] at hempty
  simp [buildDay, hempty]

/-- C4: when the formatting collaborator always fails, every record of a
day with raw messages carries as `logSummary` those raw messages joined by
newline, and the run is not aborted: it completes with exit status 0 and
still invokes the spreadsheet writer. -/
theorem C4_formatter_degrades (fmt : List Str → Option Str)
    (hf : ∀ ms, fmt ms = none) (raw : Str) (writeOk : Bool) (y m : Nat)
    (r : DayRecord)
    (hr : r ∈ (generateTimesheet fmt (splitOnChar '\n' raw) y m).1)
    (hne : groupLogs (splitOnChar '\n' raw) r.date ≠ []) :
    r.logs = joinWith ['\n'] (groupLogs (splitOnChar '\n' raw) r.date) ∧
    (runTimesheet (Except.ok raw) fmt writeOk y m).writerCalled = true ∧
    (runTimesheet (Except.ok raw) fmt writeOk y m).exitCode = 0 := by
  refine ⟨?_, rfl, rfl⟩
  rw [generateTimesheet_eq] at hr
  simp only [List.mem_map] at hr
  obtain ⟨i, _, rfl⟩ := hr
  rw [buildDay_date] at hne ⊢
  have hlen : (groupLogs (splitOnChar '\n' raw) (isoDate y m i)).length ≠ 0 :=
    fun hc => hne (List.length_eq_zero.mp hc)
  simp [buildDay, formatCommitMessages, hf, hlen]

/-- C2 as stated is false: the extractor trims the re-joined remainder
(`messageParts.join(" - ").trim()`), so for the line
"2024-06-05 - fix " — whose rest after the first separator is "fix " —
the stored message is "fix", not the verbatim rest of the line. -/
theorem C2_counterexample_trailing_space :
    toStr "2024-06-05 - fix " = toStr "2024-06-05" ++ SEP ++ toStr "fix " ∧
    parseLine (toStr "2024-06-05 - fix ") ≠ (toStr "2024-06-05", toStr "fix ") ∧
    parseLine (toStr "2024-06-05 - fix ") = (toStr "2024-06-05", toStr "fix") := by
  decide

/-- C2 amended: for a line `date ++ " - " ++ msg` in which the separator
does not occur before the shown one (no occurrence inside `date ++ " -"`),
the extractor keys the line by `date` — the substring before the first
separator occurrence — and stores the rest of the line with every later
separator occurrence re-inserted, after trimming leading and trailing
whitespace.  Scenario B's message has no edge whitespace, so it is stored
exactly (see the witness). -/
theorem C2_first_split_trimmed (date msg : Str)
    (h : hasSep (date ++ [' ', '-']) = false) :
    parseLine (date ++ SEP ++ msg) = (date, trimL msg) := by
  unfold parseLine
  rw [splitL_first_occurrence date msg h]
  simp only [List.headD_cons, List.tail_cons]
  rw [joinWith_splitL]

/-- Witness for C2 (amended): Scenario B's line groups under "2024-06-05"
with message exactly "refactor - cleanup pass". -/
theorem C2_first_split_trimmed_witness :
    parseLine (toStr "2024-06-05" ++ SEP ++ toStr "refactor - cleanup pass") =
      (toStr "2024-06-05", trimL (toStr "refactor - cleanup pass")) ∧
    trimL (toStr "refactor - cleanup pass") = toStr "refactor - cleanup pass" :=
  ⟨C2_first_split_trimmed (toStr "2024-06-05") (toStr "refactor - cleanup pass")
    (by decide), by decide⟩

/-- C10's last clause is false: the separator-less line "2024-06-05" is
keyed by itself — an ISO date of June 2024 — contributes one empty-string
message under that date, and the corresponding (Wednesday) record of the
produced timesheet gets 8 worked hours. -/
theorem C10_counterexample_bare_date :
    hasSep (toStr "2024-06-05") = false ∧
    toStr "2024-06-05" = isoDate 2024 6 5 ∧
    groupLogs [toStr "2024-06-05"] (isoDate 2024 6 5) = [[]] ∧
    buildDay (groupLogs [toStr "2024-06-05"]) (fun _ => none) 2024 6 5
      ∈ (generateTimesheet (fun _ => none) [toStr "2024-06-05"] 2024 6).1 ∧
    (buildDay (groupLogs [toStr "2024-06-05"]) (fun _ => none) 2024 6 5).workedHours
      = 8 := by
  refine ⟨by decide, by decide, by decide, ?_, by decide⟩
  rw [generateTimesheet_eq]
  exact List.mem_map_of_mem _ (by decide)

theorem parseLine_no_sep (line : Str) (h : hasSep line = false) :
    parseLine line = (line, []) := by
  unfold parseLine
  rw [splitL_no_sep line h]
  rfl

/-- C10 amended: a non-empty line without the separator is never skipped,
but the extractor is not total on them.  If the line is not the name of a
property inherited from `Object.prototype`, it creates (or extends) the
group keyed by the entire line, appending a single empty-string message —
and such a key can itself be an ISO date of the target month (a bare date
line), in which case it does contribute a raw message, and hence hours, to
that day's record.  If the line does name an inherited property (and no
own group shadows it), the truthy inherited value makes the code skip
initialisation and call `push` on a non-array: a `TypeError` aborts the
grouping. -/
theorem C10_no_separator_handling (line : Str) (hne : line ≠ [])
    (h : hasSep line = false) (lines : List Str)
    (g : Str → Option (List Str)) (hok : groupLogsJS lines = Except.ok g) :
    groupLogsJS (lines ++ [line]) =
      (if line ∈ objectProtoProps ∧ g line = none then Except.error ()
       else Except.ok (fun d =>
         if d = line then some ((g line).getD [] ++ [[]]) else g d)) := by
  have hp := parseLine_no_sep line h
  unfold groupLogsJS at hok ⊢
  rw [List.foldlM_append, hok]
  have hone : (Except.ok g >>= fun b => [line].foldlM logStepJS b :
      Except Unit (Str → Option (List Str))) = logStepJS g line := by
    show ([line].foldlM logStepJS g : Except Unit (Str → Option (List Str)))
      = logStepJS g line
    rw [List.foldlM_cons]
    cases logStepJS g line with
    | error e => rfl
    | ok g1 => rfl
  rw [hone]
  cases hgl : g line with
  | some arr =>
    rw [logStepJS_some hne (show g (parseLine line).1 = some arr by rw [hp]; exact hgl),
      if_neg (fun hc => Option.noConfusion hc.2), hp]
    rfl
  | none =>
    by_cases hmem : line ∈ objectProtoProps
    · rw [logStepJS_none_mem hne (show g (parseLine line).1 = none by rw [hp]; exact hgl)
        (show (parseLine line).1 ∈ objectProtoProps by rw [hp]; exact hmem),
        if_pos (⟨hmem, rfl⟩ : line ∈ objectProtoProps ∧ (none : Option (List Str)) = none)]
    · rw [logStepJS_none_not_mem hne (show g (parseLine line).1 = none by rw [hp]; exact hgl)
        (show (parseLine line).1 ∉ objectProtoProps by rw [hp]; exact hmem),
        if_neg (fun hc => hmem hc.1), hp]
      rfl

/-- A formatter collaborator that always fails, for the concrete witnesses. -/
def wFmt : List Str → Option Str := fun _ => none

def wLogs : List Str := [toStr "2024-06-03 - fix bug"]

def wRec3 : DayRecord := buildDay (groupLogs wLogs) wFmt 2024 6 3

/-- Witness for C3 at Monday 2024-06-03 with one logged message. -/
theorem C3_hours_rule_witness :
    wRec3 ∈ (generateTimesheet wFmt wLogs 2024 6).1 ∧
    ((wRec3.workedHours =
       if groupLogs wLogs wRec3.date ≠ [] ∧ wRec3.weekend = toStr "No"
       then DEFAULT_HOURS else 0) ∧
     (wRec3.weekend = toStr "Yes" → wRec3.workedHours = 0) ∧
     (0 < wRec3.workedHours →
       wRec3.weekend = toStr "No" ∧ groupLogs wLogs wRec3.date ≠ [])) := by
  have hm : wRec3 ∈ (generateTimesheet wFmt wLogs 2024 6).1 := by
    rw [generateTimesheet_eq]
    exact List.mem_map_of_mem _ (by decide)
  exact ⟨hm, C3_hours_rule wFmt wLogs 2024 6 wRec3 hm⟩

def wRec6 : DayRecord := buildDay (groupLogs []) wFmt 2024 6 1

/-- Witness for C6 at 2024-06-01 with no logs at all. -/
theorem C6_no_logs_witness :
    wRec6 ∈ (generateTimesheet wFmt [] 2024 6).1 ∧
    groupLogs [] wRec6.date = [] ∧
    (wRec6.logs = toStr "No logs" ∧ wRec6.workedHours = 0) := by
  have hm : wRec6 ∈ (generateTimesheet wFmt [] 2024 6).1 := by
    rw [generateTimesheet_eq]
    exact List.mem_map_of_mem _ (by decide)
  have he : groupLogs [] wRec6.date = [] := rfl
  exact ⟨hm, he, C6_no_logs wFmt [] 2024 6 wRec6 hm he⟩

def wRaw : Str := toStr "2024-06-03 - fix bug\n2024-06-03 - add test"

def wRec4 : DayRecord := buildDay (groupLogs (splitOnChar '\n' wRaw)) wFmt 2024 6 3

/-- Witness for C4: the always-failing formatter, two logged messages on
2024-06-03, a failing writer. -/
theorem C4_formatter_degrades_witness :
    wRec4 ∈ (generateTimesheet wFmt (splitOnChar '\n' wRaw) 2024 6).1 ∧
    groupLogs (splitOnChar '\n' wRaw) wRec4.date ≠ [] ∧
    (wRec4.logs = joinWith ['\n'] (groupLogs (splitOnChar '\n' wRaw) wRec4.date) ∧
     (runTimesheet (Except.ok wRaw) wFmt false 2024 6).writerCalled = true ∧
     (runTimesheet (Except.ok wRaw) wFmt false 2024 6).exitCode = 0) := by
  have hm : wRec4 ∈ (generateTimesheet wFmt (splitOnChar '\n' wRaw) 2024 6).1 := by
    rw [generateTimesheet_eq]
    exact List.mem_map_of_mem _ (by decide)
  have hne : groupLogs (splitOnChar '\n' wRaw) wRec4.date ≠ [] := by decide
  exact ⟨hm, hne, C4_formatter_degrades wFmt (fun _ => rfl) wRaw false 2024 6 wRec4 hm hne⟩

/-- Witness for C10 (amended), exercising both behaviours: the bare-date
line "2024-06-05" is stored under itself with one empty-string message,
while the separator-free line "constructor" hits the inherited
`Object.prototype.constructor` and the grouping aborts with the
`TypeError`. -/
theorem C10_no_separator_handling_witness :
    groupLogsJS ([] ++ [toStr "2024-06-05"]) =
      Except.ok (fun d => if d = toStr "2024-06-05" then some [[]] else none) ∧
    groupLogsJS ([] ++ [toStr "constructor"]) = Except.error () := by
  constructor
  · have h := C10_no_separator_handling (toStr "2024-06-05") (by decide) (by decide)
      [] (fun _ => none) rfl
    rw [h, if_neg (by decide)]
    rfl
  · have h := C10_no_separator_handling (toStr "constructor") (by decide) (by decide)
      [] (fun _ => none) rfl
    rw [h, if_pos (by exact ⟨by decide, rfl⟩)]

end TimesheetMe
